import Mathlib

set_option maxRecDepth 40000

/-!
Verification of the jfactory-stake-pool TypeScript SDK.

Part 1: a byte-level model of the layout codec.
Buffers are `List Nat` (one entry per byte); a decoder consumes bytes from the
front of the list and reports how many bytes it consumed, mirroring the
offset/`getSpan` bookkeeping of the JavaScript layout classes.
-/

/-- Little-endian value of a byte list (least significant byte first), as read
by `Buffer.readUIntLE` and the little-endian integer layouts. -/
def leValue : List Nat → Nat
  | [] => 0
  | b :: rest => b + 256 * leValue rest

/-- Little-endian byte encoding of `n` on `k` bytes, as written by
`Buffer.writeUIntLE`. -/
def leBytes : Nat → Nat → List Nat
  | 0, _ => []
  | k + 1, n => (n % 256) :: leBytes k (n / 256)

/-- Layout descriptions used by the SDK's account schemas.  A structure's field
list is inlined as an `fcons`/`fnil` chain so that the decoder is structurally
recursive (a `bstruct fields` node of `src/src/layouts.ts` or of the bundled
`borsh.struct` is the corresponding `fcons` chain).

`opt` is the strict borsh option (tag byte `0` → absent, `1` → present, any
other tag rejected); `future` is the bundled `FutureEpochLayout`
(`src/dist/index.browser.cjs.js`, `FutureEpochLayout`): tag byte `0` → absent,
any nonzero tag → present. -/
inductive BLayout where
  | u8
  | u32
  | u64
  | pubkey
  | opt (inner : BLayout)
  | future (inner : BLayout)
  | fnil
  | fcons (name : String) (l : BLayout) (rest : BLayout)
deriving DecidableEq

/-- Decoded values.  A decoded structure is an `rcons`/`rnil` chain of named
fields (a JavaScript object in insertion order). -/
inductive BValue where
  | vnat (n : Nat)
  | vbytes (bs : List Nat)
  | vnone
  | vsome (v : BValue)
  | rnil
  | rcons (name : String) (v : BValue) (rest : BValue)
deriving DecidableEq

/-- Look a field up in a decoded record. -/
def BValue.getField : BValue → String → Option BValue
  | .rcons m w rest, n => if m = n then some w else rest.getField n
  | _, _ => none

/-- Remove the first field named `n` from a decoded record chain. -/
def BValue.eraseField : BValue → String → BValue
  | .rcons m w rest, n => if m = n then rest else .rcons m w (rest.eraseField n)
  | v, _ => v

/-- Add field `n ↦ v` at the front of record `r`, with JavaScript object
semantics for a duplicated name: the position of the first assignment wins and
the value of the last assignment wins.  `r` holds the assignments made *after*
`n ↦ v`, so if `r` already contains `n`, the field keeps the front position but
takes `r`'s (later) value. -/
def prependField (n : String) (v : BValue) (r : BValue) : BValue :=
  match r.getField n with
  | some w => .rcons n w (r.eraseField n)
  | none => .rcons n v r

/-- Decode a layout at the front of a buffer, returning the decoded value and
the number of bytes consumed (the layout's value-specific span).  Reading past
the end of the buffer fails, as the JavaScript `Buffer` accessors throw. -/
def bdecode : BLayout → List Nat → Option (BValue × Nat)
  | .u8, bs => if 1 ≤ bs.length then some (.vnat (leValue (bs.take 1)), 1) else none
  | .u32, bs => if 4 ≤ bs.length then some (.vnat (leValue (bs.take 4)), 4) else none
  | .u64, bs => if 8 ≤ bs.length then some (.vnat (leValue (bs.take 8)), 8) else none
  | .pubkey, bs => if 32 ≤ bs.length then some (.vbytes (bs.take 32), 32) else none
  | .opt inner, bs =>
    match bs with
    | [] => none
    | t :: rest =>
      if t = 0 then some (.vnone, 1)
      else if t = 1 then
        match bdecode inner rest with
        | some (v, k) => some (.vsome v, k + 1)
        | none => none
      else none
  | .future inner, bs =>
    match bs with
    | [] => none
    | t :: rest =>
      if t = 0 then some (.vnone, 1)
      else
        match bdecode inner rest with
        | some (v, k) => some (.vsome v, k + 1)
        | none => none
  | .fnil, _ => some (.rnil, 0)
  | .fcons n l rest, bs =>
    match bdecode l bs with
    | some (v, k) =>
      match bdecode rest (bs.drop k) with
      | some (r, k2) => some (prependField n v r, k + k2)
      | none => none
    | none => none

/-- Encode a value for a layout, producing the encoded bytes.  Encoding fails
(`none`) where the JavaScript encoders throw: an integer out of range for its
width, a blob of the wrong length, or a value of the wrong shape. -/
def bencode : BLayout → BValue → Option (List Nat)
  | .u8, .vnat n => if n < 2 ^ 8 then some (leBytes 1 n) else none
  | .u32, .vnat n => if n < 2 ^ 32 then some (leBytes 4 n) else none
  | .u64, .vnat n => if n < 2 ^ 64 then some (leBytes 8 n) else none
  | .pubkey, .vbytes bs => if bs.length = 32 then some bs else none
  | .opt _, .vnone => some [0]
  | .opt inner, .vsome v =>
    match bencode inner v with
    | some enc => some (1 :: enc)
    | none => none
  | .future _, .vnone => some [0]
  | .future inner, .vsome v =>
    match bencode inner v with
    | some enc => some (1 :: enc)
    | none => none
  | .fnil, _ => some []
  | .fcons n l rest, r =>
    match r.getField n with
    | some v =>
      match bencode l v, bencode rest r with
      | some enc1, some enc2 => some (enc1 ++ enc2)
      | _, _ => none
    | none => none
  | _, _ => none

/-- Build a structure layout from a field list, as `borsh.struct([...])` and
`struct<T>([...])` do. -/
def fieldsL : List (String × BLayout) → BLayout
  | [] => .fnil
  | (n, l) :: rest => .fcons n l (fieldsL rest)

/-- The bundled `UInt` layout constructor (`src/dist/index.browser.cjs.js`,
`class UInt`): `super(span, property)` then
`if (6 < this.span) throw new RangeError('span must not exceed 6 bytes')`. -/
def uintMake (span : Nat) : Except String Nat :=
  if 6 < span then .error "span must not exceed 6 bytes" else .ok span

/-- `UInt.decode`: `b.readUIntLE(offset, span)`, which reads `span` bytes
little-endian and throws when the read would run past the end of the buffer. -/
def readUIntLE (b : List Nat) (offset span : Nat) : Option Nat :=
  if offset + span ≤ b.length then some (leValue ((b.drop offset).take span)) else none

/-- `UInt.encode`: `b.writeUIntLE(src, offset, span)`, which throws a
`RangeError` when the value does not fit in `span` bytes or the write would run
past the end of the buffer, and otherwise overwrites `span` bytes in place. -/
def writeUIntLE (value : Nat) (b : List Nat) (offset span : Nat) : Option (List Nat) :=
  if value < 2 ^ (8 * span) ∧ offset + span ≤ b.length then
    some (b.take offset ++ leBytes span value ++ b.drop (offset + span))
  else none

/-! Part 2: the stake-pool account schemas built from the codec. -/

/-- `fee(property)` of `src/src/layouts.ts` and of the bundle:
`struct([u64('denominator'), u64('numerator')])`. -/
def feeL : BLayout := fieldsL [("denominator", .u64), ("numerator", .u64)]

/-- `lockup(property)`: `struct([u64('unixTimestamp'), u64('epoch'),
publicKey('custodian')])`. -/
def lockupL : BLayout :=
  fieldsL [("unixTimestamp", .u64), ("epoch", .u64), ("custodian", .pubkey)]

/-- Modelled from the spec: the `option` combinator of `src/utils` used by
`src/src/layouts.ts` is not under `src/`; §4.2 specifies it — decode reads one
discriminator byte, `0` → absent with span 1, any nonzero → decode the inner
layout at offset+1 with span 1 + inner span.  That is exactly the `future`
decoder of this model. -/
def specOptionL (inner : BLayout) : BLayout := .future inner

/-- `StakePoolLayout` of `src/src/layouts.ts` (lines 113–144): a single
`option(fee('nextStakeWithdrawalFee'))` field sits between
`fee('stakeWithdrawalFee')` and `u8('stakeReferralFee')`. -/
def StakePoolLayoutTS : BLayout := fieldsL [
  ("accountType", .u8),
  ("manager", .pubkey),
  ("staker", .pubkey),
  ("stakeDepositAuthority", .pubkey),
  ("stakeWithdrawBumpSeed", .u8),
  ("validatorList", .pubkey),
  ("reserveStake", .pubkey),
  ("poolMint", .pubkey),
  ("managerFeeAccount", .pubkey),
  ("tokenProgramId", .pubkey),
  ("totalLamports", .u64),
  ("poolTokenSupply", .u64),
  ("lastUpdateEpoch", .u64),
  ("lockup", lockupL),
  ("epochFee", feeL),
  ("nextEpochFee", specOptionL feeL),
  ("preferredDepositValidatorVoteAddress", specOptionL .pubkey),
  ("preferredWithdrawValidatorVoteAddress", specOptionL .pubkey),
  ("stakeDepositFee", feeL),
  ("stakeWithdrawalFee", feeL),
  ("nextStakeWithdrawalFee", specOptionL feeL),
  ("stakeReferralFee", .u8),
  ("solDepositAuthority", specOptionL .pubkey),
  ("solDepositFee", feeL),
  ("solReferralFee", .u8),
  ("solWithdrawAuthority", specOptionL .pubkey),
  ("solWithdrawalFee", feeL),
  ("nextSolWithdrawalFee", specOptionL feeL),
  ("lastEpochPoolTokenSupply", .u64),
  ("lastEpochTotalLamports", .u64)]

/-- `StakePoolLayout` of the bundle (`src/dist/index.browser.cjs.js`, lines
548–582): between `fee('stakeWithdrawalFee')` and `u8('stakeReferralFee')` it
declares *two* fields, a plain `fee('nextStakeWithdrawalFee')` followed by
`futureEpoch(fee(), 'nextStakeWithdrawalFee')`.  The `borsh.option` fields are
the strict 0/1 option. -/
def StakePoolLayoutDist : BLayout := fieldsL [
  ("accountType", .u8),
  ("manager", .pubkey),
  ("staker", .pubkey),
  ("stakeDepositAuthority", .pubkey),
  ("stakeWithdrawBumpSeed", .u8),
  ("validatorList", .pubkey),
  ("reserveStake", .pubkey),
  ("poolMint", .pubkey),
  ("managerFeeAccount", .pubkey),
  ("tokenProgramId", .pubkey),
  ("totalLamports", .u64),
  ("poolTokenSupply", .u64),
  ("lastUpdateEpoch", .u64),
  ("lockup", lockupL),
  ("epochFee", feeL),
  ("nextEpochFee", .future feeL),
  ("preferredDepositValidatorVoteAddress", .opt .pubkey),
  ("preferredWithdrawValidatorVoteAddress", .opt .pubkey),
  ("stakeDepositFee", feeL),
  ("stakeWithdrawalFee", feeL),
  ("nextStakeWithdrawalFee", feeL),
  ("nextStakeWithdrawalFee", .future feeL),
  ("stakeReferralFee", .u8),
  ("solDepositAuthority", .opt .pubkey),
  ("solDepositFee", feeL),
  ("solReferralFee", .u8),
  ("solWithdrawAuthority", .opt .pubkey),
  ("solWithdrawalFee", feeL),
  ("nextSolWithdrawalFee", .future feeL),
  ("lastEpochPoolTokenSupply", .u64),
  ("lastEpochTotalLamports", .u64)]

/-- A valid pool-account buffer: account type `1`, every optional field absent,
`stakeReferralFee` byte (at offset 382 per the on-chain wire format of §6) set
to `7`, zero everywhere else, 451 bytes in total so that both layouts have
enough bytes to decode. -/
def poolBuf : List Nat := 1 :: (List.replicate 381 0 ++ 7 :: List.replicate 68 0)

/-!
Part 3: fee arithmetic and the withdrawal account selector
(`src/dist/index.browser.cjs.js`, `prepareWithdrawAccounts`,
`calcPoolTokensForDeposit`, `divideBnToNumber`).

Big integers (`BN`) are modelled as `Int`; `BN.div` truncates toward zero
(`Int.tdiv`) and `BN.umod` returns the nonnegative remainder (`Int.emod`).
JavaScript floating-point amounts are modelled as exact rationals `ℚ`;
addresses (`PublicKey`) as `Nat`; the address-derivation helpers
(`findStakeProgramAddress`, `findTransientStakeProgramAddress`) are external
collaborators and enter as function parameters.
-/

/-- `{ denominator, numerator }` as decoded from the `fee` layout (`u64`s). -/
structure Fee where
  denominator : Nat
  numerator : Nat
deriving DecidableEq

/-- The local `inverseFee` object of `prepareWithdrawAccounts`:
`{ numerator: fee.denominator.sub(fee.numerator), denominator: fee.denominator }`
(`BN.sub` may go negative, hence `Int`). -/
structure InvFee where
  numerator : Int
  denominator : Int
deriving DecidableEq

/-- The fields of the decoded `StakePool` record that
`prepareWithdrawAccounts` and `calcPoolTokensForDeposit` read. -/
structure StakePoolState where
  preferredWithdrawValidatorVoteAddress : Option Nat
  reserveStake : Nat
  stakeWithdrawalFee : Fee
  poolTokenSupply : Nat
  totalLamports : Nat
deriving DecidableEq

/-- The fields of a decoded `ValidatorStakeInfo` element that the selector
reads (`status` is the decoded `u8`: `0 = Active`, `1 = DeactivatingTransient`,
`2 = ReadyForRemoval`). -/
structure ValidatorStakeInfo where
  activeStakeLamports : Nat
  transientStakeLamports : Nat
  transientSeedSuffixStart : Nat
  status : Nat
  voteAccountAddress : Nat
deriving DecidableEq

/-- `ValidatorStakeInfoStatus.Active = 0`. -/
def activeStatus : Nat := 0

/-- `const MINIMUM_ACTIVE_STAKE = 1000000`. -/
def MINIMUM_ACTIVE_STAKE : Nat := 1000000

/-- `web3.LAMPORTS_PER_SOL = 10^9`. -/
def LAMPORTS_PER_SOL : Nat := 1000000000

/-- `lamportsToSol` for a JavaScript number argument:
`Math.abs(lamports) / LAMPORTS_PER_SOL`. -/
def lamportsToSol (lamports : ℚ) : ℚ := |lamports| / (LAMPORTS_PER_SOL : ℚ)

/-- `divideBnToNumber(numerator, denominator)`: returns `0` when the
denominator is zero, otherwise `quotient = numerator.div(denominator)`
(truncated), `rem = numerator.umod(denominator)` (nonnegative),
`gcd = rem.gcd(denominator)`, and the result
`quotient + rem.div(gcd).toNumber() / denominator.div(gcd).toNumber()`. -/
def divideBnToNumber (numerator denominator : Int) : ℚ :=
  if denominator = 0 then 0
  else
    ((numerator.tdiv denominator : Int) : ℚ)
      + (((numerator.emod denominator).tdiv
            (Int.gcd (numerator.emod denominator) denominator) : Int) : ℚ)
        / ((denominator.tdiv (Int.gcd (numerator.emod denominator) denominator) : Int) : ℚ)

/-- Claim C5's formula, word for word: `floor(n/d)` plus the fraction
`(r/g)/(d/g)` where `r = n mod d` (the mathematical, nonnegative remainder)
and `g = gcd(r, d)`, and `0` when `d = 0`. -/
def claimedDivideExact (n d : Int) : ℚ :=
  if d = 0 then 0
  else ((⌊(n : ℚ) / (d : ℚ)⌋ : Int) : ℚ)
    + (((n.emod d : Int) : ℚ) / ((Int.gcd (n.emod d) d : Nat) : ℚ))
      / (((d : Int) : ℚ) / ((Int.gcd (n.emod d) d : Nat) : ℚ))

/-- `calcPoolTokensForDeposit(stakePool, stakeLamports)`: the deposit itself
when the pool token supply or the total lamports is zero, otherwise
`Math.floor(divideBnToNumber(stakeLamports * poolTokenSupply, totalLamports))`. -/
def calcPoolTokensForDeposit (stakePool : StakePoolState) (stakeLamports : Int) : Int :=
  if stakePool.poolTokenSupply = 0 ∨ stakePool.totalLamports = 0 then stakeLamports
  else ⌊divideBnToNumber (stakeLamports * (stakePool.poolTokenSupply : Int))
         (stakePool.totalLamports : Int)⌋

/-- The `inverseFee` construction in `prepareWithdrawAccounts`. -/
def inverseFee (fee : Fee) : InvFee :=
  ⟨(fee.denominator : Int) - (fee.numerator : Int), (fee.denominator : Int)⟩

/-- The per-candidate `availableForWithdrawal` computation of the selector
loop: `calcPoolTokensForDeposit(stakePool, lamports)`, then — unless `skipFee`
or the inverse fee's numerator is zero —
`divideBnToNumber(new BN(avail).mul(inverseFee.denominator), inverseFee.numerator)`. -/
def availableForWithdrawal (stakePool : StakePoolState) (skipFee : Bool)
    (lamports : Int) : ℚ :=
  let avail := calcPoolTokensForDeposit stakePool lamports
  let inv := inverseFee stakePool.stakeWithdrawalFee
  if skipFee = false ∧ inv.numerator ≠ 0 then
    divideBnToNumber (avail * inv.denominator) inv.numerator
  else (avail : ℚ)

/-- The candidate tiers (`const types = ['preferred', 'active', 'transient',
'reserve']`). -/
inductive CandidateType where
  | preferred
  | active
  | transient
  | reserve
deriving DecidableEq

/-- A candidate entry pushed onto `accounts`. -/
structure WithdrawCandidate where
  ctype : CandidateType
  voteAddress : Option Nat
  stakeAddress : Nat
  lamports : Int
deriving DecidableEq

/-- An entry of the returned `withdrawFrom` list. -/
structure WithdrawAllocation where
  stakeAddress : Nat
  voteAddress : Option Nat
  poolAmount : ℚ
deriving DecidableEq

/-- The selector's failure modes: `'No accounts found'` for an empty validator
list, and the insufficient-balance error, whose message interpolates exactly
`lamportsToSol(amount)` for the originally requested amount. -/
inductive SelectorError where
  | noAccounts
  | insufficientBalance (reportedSol : ℚ)
deriving DecidableEq

/-- The active-stake candidate pushed for a validator whose
`activeStakeLamports` is nonzero: tagged `preferred` exactly when the pool's
`preferredWithdrawValidatorVoteAddress` equals the validator's vote address. -/
def activeCandidate (deriveStake : Nat → Nat) (stakePool : StakePoolState)
    (v : ValidatorStakeInfo) : WithdrawCandidate :=
  { ctype :=
      if stakePool.preferredWithdrawValidatorVoteAddress = some v.voteAccountAddress
      then .preferred else .active
    voteAddress := some v.voteAccountAddress
    stakeAddress := deriveStake v.voteAccountAddress
    lamports := (v.activeStakeLamports : Int) }

/-- The transient candidate pushed when
`transientStakeLamports - minBalance > 0`, carrying that excess. -/
def transientCandidate (deriveTransient : Nat → Nat → Nat) (minBalance : Int)
    (v : ValidatorStakeInfo) : WithdrawCandidate :=
  { ctype := .transient
    voteAddress := some v.voteAccountAddress
    stakeAddress := deriveTransient v.voteAccountAddress v.transientSeedSuffixStart
    lamports := (v.transientStakeLamports : Int) - minBalance }

/-- The candidates pushed for one validator by the "Prepare accounts" loop:
nothing for a non-`Active` status; otherwise the active-stake candidate when
`activeStakeLamports` is nonzero, then the transient candidate when the
transient excess is positive. -/
def validatorCandidates (deriveStake : Nat → Nat) (deriveTransient : Nat → Nat → Nat)
    (stakePool : StakePoolState) (minBalance : Int) (v : ValidatorStakeInfo) :
    List WithdrawCandidate :=
  if v.status ≠ activeStatus then []
  else
    (if v.activeStakeLamports ≠ 0 then [activeCandidate deriveStake stakePool v] else [])
      ++ (if 0 < (v.transientStakeLamports : Int) - minBalance then
            [transientCandidate deriveTransient minBalance v]
          else [])

/-- The default comparator `(a, b) => b.lamports - a.lamports`. -/
def defaultCompare (a b : WithdrawCandidate) : Int := b.lamports - a.lamports

/-- `accounts.sort(compareFn || ((a, b) => b.lamports - a.lamports))`: a
caller-supplied comparator fully replaces the default.  `Array.sort` places
`a` before `b` when the comparator is `≤ 0` on `(a, b)`. -/
def sortCandidates (compareFn : Option (WithdrawCandidate → WithdrawCandidate → Int))
    (l : List WithdrawCandidate) : List WithdrawCandidate :=
  List.insertionSort (fun a b => (compareFn.getD defaultCompare) a b ≤ 0) l

/-- The reserve candidate appended after sorting, when
`reserveStakeBalance = (reserveStake?.lamports ?? 0) - minBalanceForRentExemption - 1`
is positive (`reserveLamports = none` models a missing reserve account). -/
def reserveCandidate (stakePool : StakePoolState) (reserveLamports : Option Int)
    (minBalanceForRentExemption : Int) : List WithdrawCandidate :=
  let reserveStakeBalance := reserveLamports.getD 0 - minBalanceForRentExemption - 1
  if 0 < reserveStakeBalance then
    [{ ctype := .reserve
       voteAddress := none
       stakeAddress := stakePool.reserveStake
       lamports := reserveStakeBalance }]
  else []

/-- The full `accounts` list of the selector: per-validator candidates, sorted,
with the reserve candidate appended afterwards. -/
def candidateAccounts (deriveStake : Nat → Nat) (deriveTransient : Nat → Nat → Nat)
    (stakePool : StakePoolState) (validators : List ValidatorStakeInfo)
    (reserveLamports : Option Int) (minBalanceForRentExemption : Int)
    (compareFn : Option (WithdrawCandidate → WithdrawCandidate → Int)) :
    List WithdrawCandidate :=
  sortCandidates compareFn
      (validators.flatMap
        (validatorCandidates deriveStake deriveTransient stakePool
          (minBalanceForRentExemption + (MINIMUM_ACTIVE_STAKE : Int))))
    ++ reserveCandidate stakePool reserveLamports minBalanceForRentExemption

/-- The inner loop of the selector over one tier's filtered candidates:
skip a transient candidate at or below `minBalance`; compute
`poolAmount = Math.min(availableForWithdrawal, remainingAmount)`; skip when it
is `≤ 0`; otherwise record the allocation, decrement the remaining amount, and
break out as soon as it reaches exactly zero. -/
def walkTier (stakePool : StakePoolState) (skipFee : Bool) (minBalance : Int)
    (t : CandidateType) :
    List WithdrawCandidate → ℚ → List WithdrawAllocation × ℚ
  | [], remainingAmount => ([], remainingAmount)
  | c :: rest, remainingAmount =>
    if c.lamports ≤ minBalance ∧ t = .transient then
      walkTier stakePool skipFee minBalance t rest remainingAmount
    else
      let poolAmount := min (availableForWithdrawal stakePool skipFee c.lamports)
        remainingAmount
      if poolAmount ≤ 0 then walkTier stakePool skipFee minBalance t rest remainingAmount
      else
        let remaining' := remainingAmount - poolAmount
        if remaining' = 0 then ([⟨c.stakeAddress, c.voteAddress, poolAmount⟩], 0)
        else
          let r := walkTier stakePool skipFee minBalance t rest remaining'
          (⟨c.stakeAddress, c.voteAddress, poolAmount⟩ :: r.1, r.2)

/-- The outer loop over the tier list: filter the accounts for the tier, run
the inner loop, and break out of the tier walk once the remaining amount is
zero. -/
def walkTiers (stakePool : StakePoolState) (skipFee : Bool) (minBalance : Int) :
    List CandidateType → List WithdrawCandidate → ℚ →
    List WithdrawAllocation × ℚ
  | [], _, remainingAmount => ([], remainingAmount)
  | t :: ts, accounts, remainingAmount =>
    let r := walkTier stakePool skipFee minBalance t
      (accounts.filter (fun a => decide (a.ctype = t))) remainingAmount
    if r.2 = 0 then (r.1, 0)
    else
      let r2 := walkTiers stakePool skipFee minBalance ts accounts r.2
      (r.1 ++ r2.1, r2.2)

/-- `const types = ['preferred', 'active', 'transient', 'reserve']`. -/
def tierOrder : List CandidateType := [.preferred, .active, .transient, .reserve]

/-- The pure content of `prepareWithdrawAccounts`: throw `'No accounts found'`
for an empty validator list; build and sort the candidates; walk the tiers;
throw the insufficient-balance error naming `lamportsToSol(amount)` when the
remaining amount is still positive; otherwise return `withdrawFrom`. -/
def prepareWithdrawAccounts (deriveStake : Nat → Nat) (deriveTransient : Nat → Nat → Nat)
    (stakePool : StakePoolState) (validators : List ValidatorStakeInfo)
    (reserveLamports : Option Int) (minBalanceForRentExemption : Int) (amount : ℚ)
    (compareFn : Option (WithdrawCandidate → WithdrawCandidate → Int))
    (skipFee : Bool) : Except SelectorError (List WithdrawAllocation) :=
  if validators.length = 0 then .error .noAccounts
  else
    let minBalance := minBalanceForRentExemption + (MINIMUM_ACTIVE_STAKE : Int)
    let accounts := candidateAccounts deriveStake deriveTransient stakePool validators
      reserveLamports minBalanceForRentExemption compareFn
    let r := walkTiers stakePool skipFee minBalance tierOrder accounts amount
    if 0 < r.2 then .error (.insufficientBalance (lamportsToSol amount))
    else .ok r.1

/-- The walked candidate sequence: tiers in the fixed priority order, each
tier's candidates in the (sorted) order of `accounts`. -/
def tierConcat (accounts : List WithdrawCandidate) : List WithdrawCandidate :=
  tierOrder.flatMap (fun t => accounts.filter (fun a => decide (a.ctype = t)))

/-- The flat, single-pass form of the tier walk: stop as soon as the remaining
amount is exactly zero; skip a transient candidate at or below `minBalance`;
skip a candidate whose allocation `min(available, remaining)` is `≤ 0`;
otherwise record the allocation and continue with the decremented amount. -/
def specWalk (stakePool : StakePoolState) (skipFee : Bool) (minBalance : Int) :
    List WithdrawCandidate → ℚ → List WithdrawAllocation × ℚ
  | [], remainingAmount => ([], remainingAmount)
  | c :: rest, remainingAmount =>
    if remainingAmount = 0 then ([], 0)
    else if c.lamports ≤ minBalance ∧ c.ctype = .transient then
      specWalk stakePool skipFee minBalance rest remainingAmount
    else
      let poolAmount := min (availableForWithdrawal stakePool skipFee c.lamports)
        remainingAmount
      if poolAmount ≤ 0 then specWalk stakePool skipFee minBalance rest remainingAmount
      else
        let r := specWalk stakePool skipFee minBalance rest (remainingAmount - poolAmount)
        (⟨c.stakeAddress, c.voteAddress, poolAmount⟩ :: r.1, r.2)

/-- The walk exactly as claim C3 words it: identical to `specWalk` except that
the only skip rule is `min(available, remaining) ≤ 0` — the claim omits the
defensive skip of transient candidates at or below the minimum balance. -/
def claimedWalk (stakePool : StakePoolState) (skipFee : Bool) :
    List WithdrawCandidate → ℚ → List WithdrawAllocation × ℚ
  | [], remainingAmount => ([], remainingAmount)
  | c :: rest, remainingAmount =>
    if remainingAmount = 0 then ([], 0)
    else
      let poolAmount := min (availableForWithdrawal stakePool skipFee c.lamports)
        remainingAmount
      if poolAmount ≤ 0 then claimedWalk stakePool skipFee rest remainingAmount
      else
        let r := claimedWalk stakePool skipFee rest (remainingAmount - poolAmount)
        (⟨c.stakeAddress, c.voteAddress, poolAmount⟩ :: r.1, r.2)

/-- The selector as claim C3 describes it: the same candidate pipeline, but
walked by `claimedWalk`. -/
def claimedSelector (deriveStake : Nat → Nat) (deriveTransient : Nat → Nat → Nat)
    (stakePool : StakePoolState) (validators : List ValidatorStakeInfo)
    (reserveLamports : Option Int) (minBalanceForRentExemption : Int) (amount : ℚ)
    (compareFn : Option (WithdrawCandidate → WithdrawCandidate → Int))
    (skipFee : Bool) : Except SelectorError (List WithdrawAllocation) :=
  if validators.length = 0 then .error .noAccounts
  else
    let accounts := candidateAccounts deriveStake deriveTransient stakePool validators
      reserveLamports minBalanceForRentExemption compareFn
    let r := claimedWalk stakePool skipFee (tierConcat accounts) amount
    if 0 < r.2 then .error (.insufficientBalance (lamportsToSol amount))
    else .ok r.1

instance {ε α : Type} [DecidableEq ε] [DecidableEq α] : DecidableEq (Except ε α) :=
  fun a b =>
    match a, b with
    | .error e, .error e' => if h : e = e' then .isTrue (by rw [h]) else .isFalse (by simp [h])
    | .ok v, .ok v' => if h : v = v' then .isTrue (by rw [h]) else .isFalse (by simp [h])
    | .error _, .ok _ => .isFalse (by simp)
    | .ok _, .error _ => .isFalse (by simp)

/-!
Part 4: theorems.  First claim C1, the account-layout divergence.
-/

/-- C1. The Pool account wire layout (§6) and the TypeScript-source
`StakePoolLayout` put a single FutureEpoch-discriminated
`nextStakeWithdrawalFee` immediately after the 16-byte `stakeWithdrawalFee`,
followed by the `stakeReferralFee` byte; the bundled `StakePoolLayout`
instead inserts an extra plain 16-byte `fee('nextStakeWithdrawalFee')` before
the FutureEpoch field.  On the valid pool buffer `poolBuf` the two layouts
therefore consume different spans (435 vs 451 bytes) and decode different
records (`stakeReferralFee` 7 vs 0), refuting the claimed equivalence: the
bundle contradicts its own TypeScript source. -/
theorem c1_bundled_layout_diverges :
    (bdecode StakePoolLayoutTS poolBuf).map Prod.snd = some 435 ∧
    (bdecode StakePoolLayoutDist poolBuf).map Prod.snd = some 451 ∧
    (bdecode StakePoolLayoutTS poolBuf).bind (fun p => p.1.getField "stakeReferralFee")
      = some (.vnat 7) ∧
    (bdecode StakePoolLayoutDist poolBuf).bind (fun p => p.1.getField "stakeReferralFee")
      = some (.vnat 0) ∧
    (435 : Nat) ≠ 451 ∧ BValue.vnat 7 ≠ BValue.vnat 0 := by
  refine ⟨by rfl, by rfl, by rfl, by rfl, by decide, by decide⟩

/-!
Fee arithmetic (claims C5, C6, C7).
-/

/-- For a nonnegative dividend, `BN.div`'s truncation toward zero agrees with
Euclidean division, whatever the sign of the divisor. -/
theorem tdiv_eq_ediv_of_nonneg_num {n d : Int} (hn : 0 ≤ n) : n.tdiv d = n / d := by
  rcases le_or_lt 0 d with hd | hd
  · exact Int.tdiv_eq_ediv hn hd
  · have h1 : n.tdiv d = -(n.tdiv (-d)) := by
      rw [← Int.tdiv_neg, neg_neg]
    have h2 : n / d = -(n / (-d)) := by
      rw [← Int.ediv_neg, neg_neg]
    rw [h1, h2, Int.tdiv_eq_ediv hn (by omega)]

/-- Casting an exact truncated quotient to `ℚ` gives the exact fraction. -/
theorem int_cast_tdiv_of_dvd {a b : Int} (h : b ∣ a) :
    ((a.tdiv b : Int) : ℚ) = (a : ℚ) / (b : ℚ) := by
  rcases eq_or_ne b 0 with rfl | hb
  · obtain ⟨c, rfl⟩ := h
    simp
  · obtain ⟨c, rfl⟩ := h
    rw [Int.mul_tdiv_cancel_left _ hb]
    push_cast
    rw [mul_div_cancel_left₀]
    exact Int.cast_ne_zero.mpr hb

/-- `divideBnToNumber` is an exact rational division whenever the dividend is
nonnegative and the divisor is nonzero: reducing the remainder fraction by its
GCD with the denominator loses nothing. -/
theorem divideBnToNumber_exact {n d : Int} (hn : 0 ≤ n) (hd : d ≠ 0) :
    divideBnToNumber n d = (n : ℚ) / (d : ℚ) := by
  unfold divideBnToNumber
  rw [if_neg hd]
  have hg0 : (Int.gcd (n.emod d) d : Int) ≠ 0 := by
    intro h
    have h' : Int.gcd (n.emod d) d = 0 := by exact_mod_cast h
    exact hd (Int.gcd_eq_zero_iff.mp h').2
  have hgq : ((Int.gcd (n.emod d) d : Int) : ℚ) ≠ 0 := Int.cast_ne_zero.mpr hg0
  have hdq : ((d : Int) : ℚ) ≠ 0 := Int.cast_ne_zero.mpr hd
  rw [int_cast_tdiv_of_dvd (Int.gcd_dvd_left), int_cast_tdiv_of_dvd (Int.gcd_dvd_right),
    tdiv_eq_ediv_of_nonneg_num hn]
  have hsum : ((d : Int) : ℚ) * (((n / d : Int)) : ℚ) + ((n.emod d : Int) : ℚ)
      = ((n : Int) : ℚ) := by
    exact_mod_cast congrArg (fun z : Int => (z : ℚ)) (Int.ediv_add_emod n d)
  rw [div_div_div_cancel_right₀ hgq, eq_div_iff hdq, add_mul, div_mul_cancel₀ _ hdq]
  linear_combination hsum

/-- The floor of an integer fraction with positive denominator is its Euclidean
quotient. -/
theorem floor_intCast_div {n d : Int} (hd : 0 < d) : ⌊(n : ℚ) / (d : ℚ)⌋ = n / d := by
  have h1 : ((d.toNat : Nat) : ℚ) = (d : ℚ) := by
    exact_mod_cast congrArg (fun z : Int => (z : ℚ)) (Int.toNat_of_nonneg hd.le)
  have h2 : ((d.toNat : Nat) : Int) = d := Int.toNat_of_nonneg hd.le
  rw [← h1, Rat.floor_intCast_div_natCast n d.toNat, h2]

/-- The claim's formula evaluates to the exact quotient whenever the
denominator is positive. -/
theorem claimedDivideExact_exact {n d : Int} (hd : 0 < d) :
    claimedDivideExact n d = (n : ℚ) / (d : ℚ) := by
  unfold claimedDivideExact
  rw [if_neg hd.ne']
  have hg0 : ((Int.gcd (n.emod d) d : Nat) : ℚ) ≠ 0 := by
    rw [Nat.cast_ne_zero]
    intro h
    exact hd.ne' (Int.gcd_eq_zero_iff.mp h).2
  have hdq : ((d : Int) : ℚ) ≠ 0 := Int.cast_ne_zero.mpr hd.ne'
  have hsum : ((d : Int) : ℚ) * (((n / d : Int)) : ℚ) + ((n.emod d : Int) : ℚ)
      = ((n : Int) : ℚ) := by
    exact_mod_cast congrArg (fun z : Int => (z : ℚ)) (Int.ediv_add_emod n d)
  rw [floor_intCast_div hd, div_div_div_cancel_right₀ hg0, eq_div_iff hdq, add_mul,
    div_mul_cancel₀ _ hdq]
  linear_combination hsum

unseal Rat.add Rat.mul Rat.inv Rat.sub in
/-- C5 (amended to nonnegative inputs, as at every call site): with `d = 0`
the division returns `0` without throwing; with `d ≠ 0` it returns exactly
`floor(n/d) + (r/g)/(d/g)` for `r = n mod d`, `g = gcd(r, d)` — the remainder
fraction is reduced by the GCD before any floating conversion — which is the
exact rational `n/d`; in particular `divideBnToNumber 7 3 = 2 + 1/3` with
`g = 1`. -/
theorem c5_divide_exact (n d : Int) (hn : 0 ≤ n) (hd : 0 ≤ d) :
    (d = 0 → divideBnToNumber n d = 0) ∧
    (d ≠ 0 → divideBnToNumber n d = claimedDivideExact n d ∧
      divideBnToNumber n d = (n : ℚ) / (d : ℚ)) ∧
    divideBnToNumber 7 3 = 2 + 1/3 ∧ Int.gcd (Int.emod 7 3) 3 = 1 := by
  refine ⟨fun h => by simp [divideBnToNumber, h], fun h => ?_, by decide, by decide⟩
  have hd' : 0 < d := lt_of_le_of_ne hd (Ne.symm h)
  exact ⟨(divideBnToNumber_exact hn h).trans (claimedDivideExact_exact hd').symm,
    divideBnToNumber_exact hn h⟩

unseal Rat.add Rat.mul Rat.inv Rat.sub in
/-- Witness for C5 at `n = 7`, `d = 3`. -/
theorem c5_divide_exact_witness :
    0 ≤ (7 : Int) ∧ 0 ≤ (3 : Int) ∧
    divideBnToNumber 7 3 = claimedDivideExact 7 3 ∧
    divideBnToNumber 7 3 = ((7 : Int) : ℚ) / ((3 : Int) : ℚ) :=
  ⟨by decide, by decide,
    ((c5_divide_exact 7 3 (by decide) (by decide)).2.1 (by decide)).1,
    ((c5_divide_exact 7 3 (by decide) (by decide)).2.1 (by decide)).2⟩

unseal Rat.add Rat.mul Rat.inv Rat.sub in
/-- C5 counterexample: for the negative dividend `-7` with divisor `3`,
`BN.div` truncates toward zero and `BN.umod` is nonnegative, so the code
returns `-2 + 2/3 = -4/3`, while the claim's `floor(n/d) + (r/g)/(d/g)`
formula gives `-3 + 2/3 = -7/3`; "for all big integers" fails. -/
theorem c5_counterexample :
    divideBnToNumber (-7) 3 = -4/3 ∧ claimedDivideExact (-7) 3 = -7/3 ∧
    divideBnToNumber (-7) 3 ≠ claimedDivideExact (-7) 3 :=
  ⟨by decide, by decide, by decide⟩

/-- C6 (amended: the zero-denominator fee must also have a zero numerator, the
`0/1`-equivalent "no fee configured" encoding): division by a zero denominator
yields `0`; the deposit conversion returns the deposit unchanged when the pool
supply or total lamports is zero; and a `0/0` withdrawal fee inverts to a zero
numerator, so no fee inversion is applied and the candidate's pool-token value
passes through unchanged. -/
theorem c6_zero_denominator_fee (n : Int) (stakePool : StakePoolState) (skipFee : Bool)
    (lamports deposit : Int) :
    divideBnToNumber n 0 = 0 ∧
    (stakePool.poolTokenSupply = 0 ∨ stakePool.totalLamports = 0 →
      calcPoolTokensForDeposit stakePool deposit = deposit) ∧
    (stakePool.stakeWithdrawalFee.denominator = 0 →
      stakePool.stakeWithdrawalFee.numerator = 0 →
      inverseFee stakePool.stakeWithdrawalFee = ⟨0, 0⟩ ∧
      availableForWithdrawal stakePool skipFee lamports
        = ((calcPoolTokensForDeposit stakePool lamports : Int) : ℚ)) := by
  refine ⟨by simp [divideBnToNumber],
    fun h => by unfold calcPoolTokensForDeposit; rw [if_pos h], fun h1 h2 => ?_⟩
  have hinv : inverseFee stakePool.stakeWithdrawalFee = ⟨0, 0⟩ := by
    simp [inverseFee, h1, h2]
  exact ⟨hinv, by simp [availableForWithdrawal, hinv]⟩

/-- Witness for C6 with the fee `0/0` and an empty pool. -/
theorem c6_zero_denominator_fee_witness :
    divideBnToNumber 9 0 = 0 ∧
    calcPoolTokensForDeposit ⟨none, 0, ⟨0, 0⟩, 0, 0⟩ 7 = 7 ∧
    inverseFee ⟨0, 0⟩ = ⟨0, 0⟩ ∧
    availableForWithdrawal ⟨none, 0, ⟨0, 0⟩, 0, 0⟩ false 5
      = ((calcPoolTokensForDeposit ⟨none, 0, ⟨0, 0⟩, 0, 0⟩ 5 : Int) : ℚ) :=
  ⟨(c6_zero_denominator_fee 9 ⟨none, 0, ⟨0, 0⟩, 0, 0⟩ false 5 7).1,
    (c6_zero_denominator_fee 9 ⟨none, 0, ⟨0, 0⟩, 0, 0⟩ false 5 7).2.1 (Or.inl rfl),
    ((c6_zero_denominator_fee 9 ⟨none, 0, ⟨0, 0⟩, 0, 0⟩ false 5 7).2.2 rfl rfl).1,
    ((c6_zero_denominator_fee 9 ⟨none, 0, ⟨0, 0⟩, 0, 0⟩ false 5 7).2.2 rfl rfl).2⟩

unseal Rat.add Rat.mul Rat.inv Rat.sub in
/-- C6 counterexample: a zero-denominator fee with *nonzero* numerator (`1/0`)
is not treated like `0/1` in the selector — its inverse numerator is `-1 ≠ 0`,
so the inversion is applied and the candidate's value collapses to `0` instead
of passing through unchanged (here `calcPoolTokensForDeposit` gives `5`). -/
theorem c6_counterexample :
    (⟨none, 0, ⟨0, 1⟩, 0, 0⟩ : StakePoolState).stakeWithdrawalFee.denominator = 0 ∧
    inverseFee ⟨0, 1⟩ = ⟨-1, 0⟩ ∧
    calcPoolTokensForDeposit ⟨none, 0, ⟨0, 1⟩, 0, 0⟩ 5 = 5 ∧
    availableForWithdrawal ⟨none, 0, ⟨0, 1⟩, 0, 0⟩ false 5 = 0 ∧
    ((calcPoolTokensForDeposit ⟨none, 0, ⟨0, 1⟩, 0, 0⟩ 5 : Int) : ℚ) ≠ 0 :=
  ⟨rfl, by decide, by decide, by decide, by decide⟩

/-- C7. `inverseFee` is the complementary fee
`{ numerator: denominator - numerator, denominator }`; for `3/2000` it is
`1997/2000`; and in the selector, unless fee-skipping applies or the inverted
numerator is zero, the candidate's available pool tokens are grossed up by
multiplying by the inverse denominator and dividing — exactly, by
`divideBnToNumber` — by the inverse numerator. -/
theorem c7_invert_fee (fee : Fee) (stakePool : StakePoolState) (lamports x y : Int) :
    inverseFee fee = ⟨(fee.denominator : Int) - (fee.numerator : Int), (fee.denominator : Int)⟩ ∧
    inverseFee ⟨2000, 3⟩ = ⟨1997, 2000⟩ ∧
    ((inverseFee stakePool.stakeWithdrawalFee).numerator ≠ 0 →
      availableForWithdrawal stakePool false lamports
        = divideBnToNumber
            (calcPoolTokensForDeposit stakePool lamports
              * (inverseFee stakePool.stakeWithdrawalFee).denominator)
            (inverseFee stakePool.stakeWithdrawalFee).numerator) ∧
    (0 ≤ x → y ≠ 0 → divideBnToNumber x y = (x : ℚ) / (y : ℚ)) := by
  refine ⟨rfl, by decide, fun h => ?_, fun hx hy => divideBnToNumber_exact hx hy⟩
  simp [availableForWithdrawal, h]

/-- Witness for C7 on the `3/2000` fee with an empty pool and 5 lamports. -/
theorem c7_invert_fee_witness :
    (inverseFee (⟨none, 0, ⟨2000, 3⟩, 0, 0⟩ : StakePoolState).stakeWithdrawalFee).numerator ≠ 0 ∧
    availableForWithdrawal ⟨none, 0, ⟨2000, 3⟩, 0, 0⟩ false 5
      = divideBnToNumber
          (calcPoolTokensForDeposit ⟨none, 0, ⟨2000, 3⟩, 0, 0⟩ 5
            * (inverseFee (⟨none, 0, ⟨2000, 3⟩, 0, 0⟩ : StakePoolState).stakeWithdrawalFee).denominator)
          (inverseFee (⟨none, 0, ⟨2000, 3⟩, 0, 0⟩ : StakePoolState).stakeWithdrawalFee).numerator ∧
    0 ≤ (10000 : Int) ∧ (1997 : Int) ≠ 0 ∧
    divideBnToNumber 10000 1997 = ((10000 : Int) : ℚ) / ((1997 : Int) : ℚ) :=
  ⟨by decide,
    (c7_invert_fee ⟨2000, 3⟩ ⟨none, 0, ⟨2000, 3⟩, 0, 0⟩ 5 10000 1997).2.2.1 (by decide),
    by decide, by decide,
    (c7_invert_fee ⟨2000, 3⟩ ⟨none, 0, ⟨2000, 3⟩, 0, 0⟩ 5 10000 1997).2.2.2 (by decide) (by decide)⟩

/-!
Part 5: codec theorems (claims C8, C9).
-/

/-- `leBytes` always produces exactly `k` bytes. -/
theorem leBytes_length (k n : Nat) : (leBytes k n).length = k := by
  induction k generalizing n with
  | zero => rfl
  | succ k ih => simp [leBytes, ih]

/-- Reading back a `k`-byte little-endian encoding recovers any value below
`2^(8k)`. -/
theorem leValue_leBytes (k n : Nat) (h : n < 2 ^ (8 * k)) :
    leValue (leBytes k n) = n := by
  induction k generalizing n with
  | zero =>
    have : n = 0 := by simpa using h
    simp [this, leBytes, leValue]
  | succ k ih =>
    have hpow : 2 ^ (8 * (k + 1)) = 2 ^ (8 * k) * 256 := by
      rw [Nat.mul_succ, Nat.pow_add]
    have hdiv : n / 256 < 2 ^ (8 * k) := by
      rw [Nat.div_lt_iff_lt_mul (by norm_num)]
      omega
    have := ih (n / 256) hdiv
    simp only [leBytes, leValue, this]
    omega

/-- C8.  The `FutureEpochLayout` codec: encoding an absent value writes exactly
the single byte `0`; encoding a present value `v` writes the lead byte `1`
followed by the inner encoding, `1 + span(v)` bytes in total; decoding reads
one discriminator byte, returns absent with span 1 on `0`, and for *any*
nonzero discriminator decodes the inner layout at offset 1 with span
`1 + inner span` — so decode after encode recovers exactly absent or `v`. -/
theorem c8_future_epoch_roundtrip (inner : BLayout) (v : BValue) (enc rest : List Nat)
    (t : Nat) (henc : bencode inner v = some enc)
    (hdec : bdecode inner (enc ++ rest) = some (v, enc.length)) (ht : t ≠ 0) :
    bencode (.future inner) .vnone = some [0] ∧
    bencode (.future inner) (.vsome v) = some (1 :: enc) ∧
    (1 :: enc).length = 1 + enc.length ∧
    bdecode (.future inner) (0 :: (enc ++ rest)) = some (.vnone, 1) ∧
    bdecode (.future inner) (t :: (enc ++ rest)) = some (.vsome v, enc.length + 1) := by
  refine ⟨rfl, by simp [bencode, henc], by simp [Nat.add_comm], by simp [bdecode], ?_⟩
  simp [bdecode, ht, hdec]

/-- Witness for C8: the `fee` layout as inner layout, the fee `1/2`, trailing
byte `9`, discriminator `5`. -/
theorem c8_future_epoch_roundtrip_witness :
    bencode (.future feeL) .vnone = some [0] ∧
    bencode (.future feeL)
        (.vsome (.rcons "denominator" (.vnat 1) (.rcons "numerator" (.vnat 2) .rnil)))
      = some (1 :: [1, 0, 0, 0, 0, 0, 0, 0, 2, 0, 0, 0, 0, 0, 0, 0]) ∧
    (1 :: [1, 0, 0, 0, 0, 0, 0, 0, 2, 0, 0, 0, 0, 0, 0, 0]).length
      = 1 + [1, 0, 0, 0, 0, 0, 0, 0, 2, 0, 0, 0, 0, 0, 0, 0].length ∧
    bdecode (.future feeL) (0 :: ([1, 0, 0, 0, 0, 0, 0, 0, 2, 0, 0, 0, 0, 0, 0, 0] ++ [9]))
      = some (.vnone, 1) ∧
    bdecode (.future feeL) (5 :: ([1, 0, 0, 0, 0, 0, 0, 0, 2, 0, 0, 0, 0, 0, 0, 0] ++ [9]))
      = some (.vsome (.rcons "denominator" (.vnat 1) (.rcons "numerator" (.vnat 2) .rnil)),
          [1, 0, 0, 0, 0, 0, 0, 0, 2, 0, 0, 0, 0, 0, 0, 0].length + 1) :=
  c8_future_epoch_roundtrip feeL
    (.rcons "denominator" (.vnat 1) (.rcons "numerator" (.vnat 2) .rnil))
    [1, 0, 0, 0, 0, 0, 0, 0, 2, 0, 0, 0, 0, 0, 0, 0] [9] 5 rfl rfl (by decide)

/-- C9 (amended: the width bound of the bundled `UInt` is 6 bytes, not 8, and
the constructor's error message is `span must not exceed 6 bytes`):
construction succeeds for widths up to 6 and throws a `RangeError` beyond;
decode reads exactly `width` bytes little-endian; encode throws a `RangeError`
when the value exceeds the representable range and otherwise writes the
little-endian bytes in place, which decode reads back. -/
theorem c9_uint_bounds (w value offset : Nat) (b : List Nat) :
    (w ≤ 6 → uintMake w = .ok w) ∧
    (6 < w → uintMake w = .error "span must not exceed 6 bytes") ∧
    (2 ^ (8 * w) ≤ value → writeUIntLE value b offset w = none) ∧
    (value < 2 ^ (8 * w) → offset + w ≤ b.length →
      ∃ b', writeUIntLE value b offset w = some b' ∧ b'.length = b.length ∧
        readUIntLE b' offset w = some value) := by
  refine ⟨fun h => by unfold uintMake; rw [if_neg (by omega)],
    fun h => by unfold uintMake; rw [if_pos h],
    fun h => by unfold writeUIntLE; rw [if_neg (fun hc => absurd hc.1 (not_lt.mpr h))],
    fun h1 h2 => ?_⟩
  refine ⟨b.take offset ++ leBytes w value ++ b.drop (offset + w), ?_, ?_, ?_⟩
  · unfold writeUIntLE
    rw [if_pos ⟨h1, h2⟩]
  · have := leBytes_length w value
    simp only [List.length_append, this, List.length_take, List.length_drop]
    omega
  · have hlentake : (b.take offset).length = offset := by
      rw [List.length_take]
      omega
    have hlen : (b.take offset ++ leBytes w value ++ b.drop (offset + w)).length = b.length := by
      have := leBytes_length w value
      simp only [List.length_append, this, List.length_take, List.length_drop]
      omega
    unfold readUIntLE
    rw [if_pos (by omega)]
    have hdrop : (b.take offset ++ leBytes w value ++ b.drop (offset + w)).drop offset
        = leBytes w value ++ b.drop (offset + w) := by
      rw [List.append_assoc]
      exact List.drop_left' hlentake
    have htake : (leBytes w value ++ b.drop (offset + w)).take w = leBytes w value :=
      List.take_left' (leBytes_length w value)
    rw [hdrop, htake, leValue_leBytes w value h1]

/-- Witness for C9: width 4 succeeds, width 9 fails, an out-of-range value
fails to encode, and 258 round-trips at offset 1 in a 6-byte buffer. -/
theorem c9_uint_bounds_witness :
    uintMake 4 = .ok 4 ∧
    uintMake 9 = .error "span must not exceed 6 bytes" ∧
    writeUIntLE (2 ^ 32) (List.replicate 6 0) 1 4 = none ∧
    (∃ b', writeUIntLE 258 (List.replicate 6 0) 1 4 = some b' ∧
      b'.length = (List.replicate 6 0).length ∧ readUIntLE b' 1 4 = some 258) :=
  ⟨(c9_uint_bounds 4 0 0 []).1 (by decide),
    (c9_uint_bounds 9 0 0 []).2.1 (by decide),
    (c9_uint_bounds 4 (2 ^ 32) 1 (List.replicate 6 0)).2.2.1 (by decide),
    (c9_uint_bounds 4 258 1 (List.replicate 6 0)).2.2.2 (by decide) (by decide)⟩

/-- C9 counterexample: the claim says construction succeeds for every width up
to 8 and fails only beyond 8 with `span too large`; the bundled `UInt`
constructor already throws at width 7, with the message
`span must not exceed 6 bytes`. -/
theorem c9_counterexample :
    (7 : Nat) ≤ 8 ∧ uintMake 7 = .error "span must not exceed 6 bytes" ∧
    ∀ n, uintMake 7 ≠ .ok n :=
  ⟨by decide, rfl, fun n h => by simp [uintMake] at h⟩

/-!
Part 6: the candidate list (claim C2).
-/

/-- Membership in one validator's candidate contribution. -/
theorem mem_validatorCandidates {deriveStake : Nat → Nat} {deriveTransient : Nat → Nat → Nat}
    {stakePool : StakePoolState} {minBalance : Int} {v : ValidatorStakeInfo}
    {c : WithdrawCandidate} :
    c ∈ validatorCandidates deriveStake deriveTransient stakePool minBalance v ↔
      v.status = activeStatus ∧
        ((v.activeStakeLamports ≠ 0 ∧ c = activeCandidate deriveStake stakePool v) ∨
         (0 < (v.transientStakeLamports : Int) - minBalance ∧
           c = transientCandidate deriveTransient minBalance v)) := by
  unfold validatorCandidates
  by_cases h : v.status = activeStatus
  · rw [if_neg (fun hc => hc h)]
    by_cases h1 : v.activeStakeLamports ≠ 0 <;>
      by_cases h2 : 0 < (v.transientStakeLamports : Int) - minBalance <;>
        simp [h, h1, h2]
  · simp [h]

/-- Membership in the reserve contribution. -/
theorem mem_reserveCandidate {stakePool : StakePoolState} {reserveLamports : Option Int}
    {minBalanceForRentExemption : Int} {c : WithdrawCandidate} :
    c ∈ reserveCandidate stakePool reserveLamports minBalanceForRentExemption ↔
      0 < reserveLamports.getD 0 - minBalanceForRentExemption - 1 ∧
        c = ⟨.reserve, none, stakePool.reserveStake,
          reserveLamports.getD 0 - minBalanceForRentExemption - 1⟩ := by
  unfold reserveCandidate
  by_cases h : 0 < reserveLamports.getD 0 - minBalanceForRentExemption - 1 <;> simp [h]

/-- An active-stake candidate is never tagged `reserve`. -/
theorem activeCandidate_ctype_ne_reserve (deriveStake : Nat → Nat)
    (stakePool : StakePoolState) (v : ValidatorStakeInfo) :
    (activeCandidate deriveStake stakePool v).ctype ≠ CandidateType.reserve := by
  unfold activeCandidate
  dsimp only
  split <;> simp

/-- C2.  The selector's candidate list contains: for each `Active` validator,
an active-stake candidate iff its `activeStakeLamports` is nonzero (tagged
`preferred` exactly when its vote address is the pool's preferred-withdraw
address, with the active lamports), a transient candidate iff the transient
lamports exceed the minimum balance (with that excess), and exactly one
reserve candidate iff the reserve balance minus rent-exemption minus 1 is
positive (with that difference); non-`Active` validators contribute nothing. -/
theorem c2_candidate_characterization (deriveStake : Nat → Nat)
    (deriveTransient : Nat → Nat → Nat) (stakePool : StakePoolState)
    (validators : List ValidatorStakeInfo) (reserveLamports : Option Int)
    (minBalanceForRentExemption : Int)
    (compareFn : Option (WithdrawCandidate → WithdrawCandidate → Int)) :
    (∀ c, c ∈ candidateAccounts deriveStake deriveTransient stakePool validators
        reserveLamports minBalanceForRentExemption compareFn ↔
      ((∃ v ∈ validators, v.status = activeStatus ∧
          ((v.activeStakeLamports ≠ 0 ∧ c = activeCandidate deriveStake stakePool v) ∨
           (0 < (v.transientStakeLamports : Int)
                - (minBalanceForRentExemption + (MINIMUM_ACTIVE_STAKE : Int)) ∧
             c = transientCandidate deriveTransient
               (minBalanceForRentExemption + (MINIMUM_ACTIVE_STAKE : Int)) v))) ∨
        (0 < reserveLamports.getD 0 - minBalanceForRentExemption - 1 ∧
          c = ⟨.reserve, none, stakePool.reserveStake,
            reserveLamports.getD 0 - minBalanceForRentExemption - 1⟩))) ∧
    (candidateAccounts deriveStake deriveTransient stakePool validators reserveLamports
        minBalanceForRentExemption compareFn).countP
        (fun c => decide (c.ctype = CandidateType.reserve))
      = (if 0 < reserveLamports.getD 0 - minBalanceForRentExemption - 1 then 1 else 0) ∧
    (∀ v : ValidatorStakeInfo,
      (activeCandidate deriveStake stakePool v).lamports = (v.activeStakeLamports : Int) ∧
      ((activeCandidate deriveStake stakePool v).ctype = CandidateType.preferred ↔
        stakePool.preferredWithdrawValidatorVoteAddress = some v.voteAccountAddress) ∧
      (transientCandidate deriveTransient
          (minBalanceForRentExemption + (MINIMUM_ACTIVE_STAKE : Int)) v).lamports
        = (v.transientStakeLamports : Int)
            - (minBalanceForRentExemption + (MINIMUM_ACTIVE_STAKE : Int))) ∧
    (∀ v : ValidatorStakeInfo, v.status ≠ activeStatus →
      validatorCandidates deriveStake deriveTransient stakePool
        (minBalanceForRentExemption + (MINIMUM_ACTIVE_STAKE : Int)) v = []) := by
  refine ⟨fun c => ?_, ?_, fun v => ⟨rfl, ?_, rfl⟩, fun v hv => ?_⟩
  · unfold candidateAccounts sortCandidates
    rw [List.mem_append, (List.perm_insertionSort _ _).mem_iff, List.mem_flatMap]
    constructor
    · rintro (⟨v, hv, hc⟩ | hc)
      · exact Or.inl ⟨v, hv, mem_validatorCandidates.mp hc⟩
      · exact Or.inr (mem_reserveCandidate.mp hc)
    · rintro (⟨v, hv, hc⟩ | hc)
      · exact Or.inl ⟨v, hv, mem_validatorCandidates.mpr hc⟩
      · exact Or.inr (mem_reserveCandidate.mpr hc)
  · unfold candidateAccounts sortCandidates
    rw [List.countP_append]
    have hperm := (List.perm_insertionSort
        (fun a b : WithdrawCandidate => (compareFn.getD defaultCompare) a b ≤ 0)
        (validators.flatMap
          (validatorCandidates deriveStake deriveTransient stakePool
            (minBalanceForRentExemption + (MINIMUM_ACTIVE_STAKE : Int))))).countP_eq
        (fun c : WithdrawCandidate => decide (c.ctype = CandidateType.reserve))
    rw [hperm]
    have h0 : (validators.flatMap
        (validatorCandidates deriveStake deriveTransient stakePool
          (minBalanceForRentExemption + (MINIMUM_ACTIVE_STAKE : Int)))).countP
        (fun c => decide (c.ctype = CandidateType.reserve)) = 0 := by
      rw [List.countP_eq_zero]
      intro c hc
      rw [List.mem_flatMap] at hc
      obtain ⟨v, _, hc⟩ := hc
      rcases (mem_validatorCandidates.mp hc).2 with ⟨_, rfl⟩ | ⟨_, rfl⟩
      · simpa using activeCandidate_ctype_ne_reserve deriveStake stakePool v
      · simp [transientCandidate]
    rw [h0]
    unfold reserveCandidate
    by_cases h : 0 < reserveLamports.getD 0 - minBalanceForRentExemption - 1 <;> simp [h]
  · unfold activeCandidate
    dsimp only
    split <;> rename_i h <;> simp [h]
  · unfold validatorCandidates
    rw [if_pos hv]

/-!
Part 7: the tier walk (claims C3, C4, C10).
-/

/-- The flat walk stops immediately once the remaining amount is zero. -/
theorem specWalk_zero (stakePool : StakePoolState) (skipFee : Bool) (minBalance : Int)
    (l : List WithdrawCandidate) : specWalk stakePool skipFee minBalance l 0 = ([], 0) := by
  cases l <;> simp [specWalk]

/-- The inner tier loop allocates nothing once the remaining amount is zero:
every candidate's `min(available, 0)` is `≤ 0` and is skipped. -/
theorem walkTier_zero (stakePool : StakePoolState) (skipFee : Bool) (minBalance : Int)
    (t : CandidateType) (l : List WithdrawCandidate) :
    walkTier stakePool skipFee minBalance t l 0 = ([], 0) := by
  induction l with
  | nil => rfl
  | cons c rest ih =>
    simp only [walkTier]
    by_cases h : c.lamports ≤ minBalance ∧ t = CandidateType.transient
    · rw [if_pos h]
      exact ih
    · rw [if_neg h, if_pos (min_le_right _ 0)]
      exact ih

/-- On a list of candidates that all belong to tier `t`, the nested inner loop
agrees with the flat walk. -/
theorem walkTier_eq_specWalk (stakePool : StakePoolState) (skipFee : Bool) (minBalance : Int)
    (t : CandidateType) (l : List WithdrawCandidate) (rem : ℚ)
    (hl : ∀ c ∈ l, c.ctype = t) :
    walkTier stakePool skipFee minBalance t l rem = specWalk stakePool skipFee minBalance l rem := by
  induction l generalizing rem with
  | nil => rfl
  | cons c rest ih =>
    have hc : c.ctype = t := hl c (List.mem_cons_self c rest)
    have hrest : ∀ x ∈ rest, x.ctype = t := fun x hx => hl x (List.mem_cons_of_mem c hx)
    by_cases h0 : rem = 0
    · subst h0
      rw [walkTier_zero, specWalk_zero]
    · simp only [walkTier, specWalk, if_neg h0, hc]
      by_cases h1 : c.lamports ≤ minBalance ∧ t = CandidateType.transient
      · rw [if_pos h1, if_pos h1]
        exact ih _ hrest
      · rw [if_neg h1, if_neg h1]
        by_cases h2 : min (availableForWithdrawal stakePool skipFee c.lamports) rem ≤ 0
        · rw [if_pos h2, if_pos h2]
          exact ih _ hrest
        · rw [if_neg h2, if_neg h2]
          by_cases h3 : rem - min (availableForWithdrawal stakePool skipFee c.lamports) rem = 0
          · rw [if_pos h3, h3, specWalk_zero]
          · rw [if_neg h3, ih _ hrest]

/-- The flat walk processes an appended list left to right, threading the
remaining amount. -/
theorem specWalk_append (stakePool : StakePoolState) (skipFee : Bool) (minBalance : Int)
    (l1 l2 : List WithdrawCandidate) (rem : ℚ) :
    specWalk stakePool skipFee minBalance (l1 ++ l2) rem
      = ((specWalk stakePool skipFee minBalance l1 rem).1
            ++ (specWalk stakePool skipFee minBalance l2
                  (specWalk stakePool skipFee minBalance l1 rem).2).1,
          (specWalk stakePool skipFee minBalance l2
            (specWalk stakePool skipFee minBalance l1 rem).2).2) := by
  induction l1 generalizing rem with
  | nil => simp [specWalk]
  | cons c rest ih =>
    by_cases h0 : rem = 0
    · subst h0
      rw [specWalk_zero, specWalk_zero]
      simp [specWalk_zero]
    · simp only [List.cons_append, specWalk, if_neg h0]
      by_cases h1 : c.lamports ≤ minBalance ∧ c.ctype = CandidateType.transient
      · rw [if_pos h1, if_pos h1]
        exact ih _
      · rw [if_neg h1, if_neg h1]
        by_cases h2 : min (availableForWithdrawal stakePool skipFee c.lamports) rem ≤ 0
        · rw [if_pos h2, if_pos h2]
          exact ih _
        · rw [if_neg h2, if_neg h2]
          simp only [List.append_eq]
          rw [ih _]
          simp

/-- The nested tier loops are the flat walk over the tier-ordered
concatenation of the filtered candidates: the outer break on a zero remaining
amount and the inner break agree with the flat walk's stop rule. -/
theorem walkTiers_eq_specWalk (stakePool : StakePoolState) (skipFee : Bool) (minBalance : Int)
    (ts : List CandidateType) (accounts : List WithdrawCandidate) (rem : ℚ) :
    walkTiers stakePool skipFee minBalance ts accounts rem
      = specWalk stakePool skipFee minBalance
          (ts.flatMap (fun t => accounts.filter (fun a => decide (a.ctype = t)))) rem := by
  induction ts generalizing rem with
  | nil => rfl
  | cons t ts ih =>
    simp only [walkTiers, List.flatMap_cons]
    rw [specWalk_append,
      ← walkTier_eq_specWalk stakePool skipFee minBalance t _ rem
        (fun c hc => by simpa using (List.mem_filter.mp hc).2)]
    by_cases h : (walkTier stakePool skipFee minBalance t
        (accounts.filter (fun a => decide (a.ctype = t))) rem).2 = 0
    · rw [if_pos h, h, specWalk_zero]
      simp
    · rw [if_neg h, ih _]

/-- The full tier walk in the fixed tier order is the flat walk over the
tier-ordered concatenation. -/
theorem walkTiers_tierOrder_eq (stakePool : StakePoolState) (skipFee : Bool)
    (minBalance : Int) (accounts : List WithdrawCandidate) (rem : ℚ) :
    walkTiers stakePool skipFee minBalance tierOrder accounts rem
      = specWalk stakePool skipFee minBalance (tierConcat accounts) rem :=
  walkTiers_eq_specWalk stakePool skipFee minBalance tierOrder accounts rem

/-- The tier-ordered concatenation is a permutation of the candidate list:
every candidate belongs to exactly one of the four tiers. -/
theorem tierConcat_perm (accounts : List WithdrawCandidate) :
    List.Perm (tierConcat accounts) accounts := by
  rw [List.perm_iff_count]
  intro a
  simp only [tierConcat, tierOrder, List.flatMap_cons, List.flatMap_nil, List.append_nil,
    List.count_append]
  have hz : ∀ t : CandidateType, a.ctype ≠ t →
      (accounts.filter (fun x => decide (x.ctype = t))).count a = 0 := by
    intro t ht
    exact List.count_eq_zero_of_not_mem
      (fun hm => ht (by simpa using (List.mem_filter.mp hm).2))
  have ho : ∀ t : CandidateType, a.ctype = t →
      (accounts.filter (fun x => decide (x.ctype = t))).count a = accounts.count a := by
    intro t ht
    exact List.count_filter (by simpa using ht)
  cases h : a.ctype <;>
    rw [ho _ h, hz _ (by simp [h]), hz _ (by simp [h]), hz _ (by simp [h])] <;>
    omega

/-- C3 (amended: a `Transient` candidate whose lamports are at or below the
minimum balance is also skipped without allocation, a defensive check the
claim omits).  The selector walks candidates tier by tier in the fixed order
preferred → active → transient → reserve, within each tier in the sorted
order (descending lamports under the default comparator; a caller-supplied
comparator fully replaces the default ordering); each processed candidate is
allocated `min(available, remaining)` and skipped without an allocation when
that minimum is `≤ 0`; the walk terminates as soon as the remaining amount is
exactly zero, even mid-tier. -/
theorem c3_walk_structure (stakePool : StakePoolState) (skipFee : Bool) (minBalance : Int)
    (accounts l : List WithdrawCandidate) (rem : ℚ) (t : CandidateType) :
    walkTiers stakePool skipFee minBalance tierOrder accounts rem
      = specWalk stakePool skipFee minBalance (tierConcat accounts) rem ∧
    specWalk stakePool skipFee minBalance l 0 = ([], 0) ∧
    List.Sorted (fun a b : WithdrawCandidate => b.lamports ≤ a.lamports)
      ((sortCandidates none l).filter (fun a => decide (a.ctype = t))) := by
  refine ⟨walkTiers_eq_specWalk stakePool skipFee minBalance tierOrder accounts rem,
    specWalk_zero stakePool skipFee minBalance l, ?_⟩
  haveI : IsTotal WithdrawCandidate (fun a b => defaultCompare a b ≤ 0) :=
    ⟨fun a b => by simp only [defaultCompare, sub_nonpos]; omega⟩
  haveI : IsTrans WithdrawCandidate (fun a b => defaultCompare a b ≤ 0) :=
    ⟨fun a b c hab hbc => by
      simp only [defaultCompare, sub_nonpos] at *
      omega⟩
  have hs : List.Sorted (fun a b => defaultCompare a b ≤ 0) (sortCandidates none l) :=
    List.sorted_insertionSort (fun a b => defaultCompare a b ≤ 0) l
  exact (hs.filter _).imp (fun hab => by
    simpa only [defaultCompare, sub_nonpos] using hab)

unseal Rat.add Rat.mul Rat.inv Rat.sub in
/-- C3 counterexample: one `Active` validator with `transientStakeLamports`
1_500_000 and zero rent-exemption yields a transient candidate with lamports
500_000, at or below the minimum balance 1_000_000.  The selector defensively
skips it and fails with insufficient balance for a request of 3 pool tokens,
while the walk exactly as the claim words it (skipping only on
`min(available, remaining) ≤ 0`) would allocate the 3 tokens and succeed. -/
theorem c3_counterexample :
    prepareWithdrawAccounts (fun v => v + 1000) (fun v s => v + 2000 + s)
        ⟨none, 99, ⟨1, 0⟩, 0, 0⟩ [⟨0, 1500000, 5, 0, 77⟩] none 0 3 none false
      = .error (.insufficientBalance (lamportsToSol 3)) ∧
    claimedSelector (fun v => v + 1000) (fun v s => v + 2000 + s)
        ⟨none, 99, ⟨1, 0⟩, 0, 0⟩ [⟨0, 1500000, 5, 0, 77⟩] none 0 3 none false
      = .ok [⟨2082, some 77, 3⟩] :=
  ⟨by decide, by decide⟩

/-- C4 (amended: the insufficient-balance error names the *originally
requested* amount, converted to sol; the unmet remainder and the best-effort
allocated amount are not reported).  With a nonempty validator list, the
selector fails with the insufficient-balance error exactly when the remaining
requested amount after exhausting all tiers is still positive, and the error's
only datum is `lamportsToSol(amount) = |amount| / 10^9`. -/
theorem c4_insufficient_error (deriveStake : Nat → Nat) (deriveTransient : Nat → Nat → Nat)
    (stakePool : StakePoolState) (validators : List ValidatorStakeInfo)
    (reserveLamports : Option Int) (minBalanceForRentExemption : Int) (amount : ℚ)
    (compareFn : Option (WithdrawCandidate → WithdrawCandidate → Int)) (skipFee : Bool)
    (hne : validators.length ≠ 0) :
    (prepareWithdrawAccounts deriveStake deriveTransient stakePool validators
        reserveLamports minBalanceForRentExemption amount compareFn skipFee
      = .error (.insufficientBalance (lamportsToSol amount)) ↔
      0 < (walkTiers stakePool skipFee
          (minBalanceForRentExemption + (MINIMUM_ACTIVE_STAKE : Int)) tierOrder
          (candidateAccounts deriveStake deriveTransient stakePool validators
            reserveLamports minBalanceForRentExemption compareFn) amount).2) ∧
    lamportsToSol amount = |amount| / ((LAMPORTS_PER_SOL : Nat) : ℚ) := by
  refine ⟨?_, rfl⟩
  unfold prepareWithdrawAccounts
  rw [if_neg hne]
  by_cases h : 0 < (walkTiers stakePool skipFee
      (minBalanceForRentExemption + (MINIMUM_ACTIVE_STAKE : Int)) tierOrder
      (candidateAccounts deriveStake deriveTransient stakePool validators
        reserveLamports minBalanceForRentExemption compareFn) amount).2
  · rw [if_pos h]
    simp [h]
  · rw [if_neg h]
    simp [h]

unseal Rat.add Rat.mul Rat.inv Rat.sub in
/-- Witness for C4: one active validator worth 100 pool tokens, request 150 —
the walk leaves 50 unmet and the selector reports `lamportsToSol 150`. -/
theorem c4_insufficient_error_witness :
    ([⟨100, 0, 0, 0, 77⟩] : List ValidatorStakeInfo).length ≠ 0 ∧
    prepareWithdrawAccounts (fun v => v + 1000) (fun v s => v + 2000 + s)
        ⟨none, 99, ⟨1, 0⟩, 0, 0⟩ [⟨100, 0, 0, 0, 77⟩] none 0 150 none false
      = .error (.insufficientBalance (lamportsToSol 150)) :=
  ⟨by decide,
    (c4_insufficient_error (fun v => v + 1000) (fun v s => v + 2000 + s)
        ⟨none, 99, ⟨1, 0⟩, 0, 0⟩ [⟨100, 0, 0, 0, 77⟩] none 0 150 none false
        (by decide)).1.mpr (by decide)⟩

unseal Rat.add Rat.mul Rat.inv Rat.sub in
/-- C4 counterexample: at the same input the unmet remainder is 50 and the
allocated amount is 100, yet the error's datum is `lamportsToSol 150` — the
requested amount — which differs from the remainder (in either unit), so the
error does not name the unmet remainder nor report the allocated amount. -/
theorem c4_counterexample :
    prepareWithdrawAccounts (fun v => v + 1000) (fun v s => v + 2000 + s)
        ⟨none, 99, ⟨1, 0⟩, 0, 0⟩ [⟨100, 0, 0, 0, 77⟩] none 0 150 none false
      = .error (.insufficientBalance (lamportsToSol 150)) ∧
    (walkTiers ⟨none, 99, ⟨1, 0⟩, 0, 0⟩ false 1000000 tierOrder
        (candidateAccounts (fun v => v + 1000) (fun v s => v + 2000 + s)
          ⟨none, 99, ⟨1, 0⟩, 0, 0⟩ [⟨100, 0, 0, 0, 77⟩] none 0 none) 150).2 = 50 ∧
    lamportsToSol 150 ≠ lamportsToSol 50 ∧ lamportsToSol 150 ≠ 50 ∧
    lamportsToSol 150 ≠ lamportsToSol 100 ∧ lamportsToSol 150 ≠ 100 :=
  ⟨by decide, by decide, by decide, by decide, by decide, by decide⟩

/-- Invariants of the flat walk, for a nonnegative starting amount: the
remaining amount stays nonnegative, the allocated pool amounts sum to exactly
what was consumed, every recorded allocation is strictly positive, and the
allocations project injectively and in order onto distinct candidates. -/
theorem specWalk_invariants (stakePool : StakePoolState) (skipFee : Bool) (minBalance : Int)
    (l : List WithdrawCandidate) (rem : ℚ) (h : 0 ≤ rem) :
    0 ≤ (specWalk stakePool skipFee minBalance l rem).2 ∧
    ((specWalk stakePool skipFee minBalance l rem).1.map WithdrawAllocation.poolAmount).sum
      = rem - (specWalk stakePool skipFee minBalance l rem).2 ∧
    (∀ a ∈ (specWalk stakePool skipFee minBalance l rem).1, 0 < a.poolAmount) ∧
    List.Sublist
      ((specWalk stakePool skipFee minBalance l rem).1.map
        (fun a => (a.stakeAddress, a.voteAddress)))
      (l.map (fun c => (c.stakeAddress, c.voteAddress))) := by
  induction l generalizing rem with
  | nil =>
    simp only [specWalk, List.map_nil, List.sum_nil, List.not_mem_nil]
    exact ⟨h, by ring, fun a ha => absurd ha (by simp), List.Sublist.refl _⟩
  | cons c rest ih =>
    by_cases h0 : rem = 0
    · subst h0
      rw [specWalk_zero]
      simp
    · simp only [specWalk, if_neg h0]
      by_cases h1 : c.lamports ≤ minBalance ∧ c.ctype = CandidateType.transient
      · rw [if_pos h1]
        obtain ⟨i1, i2, i3, i4⟩ := ih rem h
        exact ⟨i1, i2, i3, i4.trans (List.sublist_cons_self _ _)⟩
      · rw [if_neg h1]
        by_cases h2 : min (availableForWithdrawal stakePool skipFee c.lamports) rem ≤ 0
        · rw [if_pos h2]
          obtain ⟨i1, i2, i3, i4⟩ := ih rem h
          exact ⟨i1, i2, i3, i4.trans (List.sublist_cons_self _ _)⟩
        · rw [if_neg h2]
          have hple : min (availableForWithdrawal stakePool skipFee c.lamports) rem ≤ rem :=
            min_le_right _ _
          have hrem' : 0 ≤ rem - min (availableForWithdrawal stakePool skipFee c.lamports) rem := by
            linarith
          obtain ⟨i1, i2, i3, i4⟩ := ih _ hrem'
          dsimp only
          refine ⟨i1, ?_, ?_, ?_⟩
          · simp only [List.map_cons, List.sum_cons, i2]
            ring
          · intro a ha
            rcases List.mem_cons.mp ha with rfl | ha
            · exact lt_of_not_le h2
            · exact i3 a ha
          · simpa using i4.cons₂ (c.stakeAddress, c.voteAddress)

/-- C10 (amended: for a nonnegative requested amount — a negative request
instead returns normally with an empty allocation list).  Whenever the
selector returns normally, every returned allocation has a strictly positive
pool amount, each candidate entry contributes at most one allocation (the
allocations project order-preservingly onto distinct entries of the walked
candidate sequence, which is a permutation of the candidate list), and the
allocated pool amounts sum to exactly the requested amount. -/
theorem c10_allocation_invariants (deriveStake : Nat → Nat)
    (deriveTransient : Nat → Nat → Nat) (stakePool : StakePoolState)
    (validators : List ValidatorStakeInfo) (reserveLamports : Option Int)
    (minBalanceForRentExemption : Int) (amount : ℚ)
    (compareFn : Option (WithdrawCandidate → WithdrawCandidate → Int)) (skipFee : Bool)
    (hamt : 0 ≤ amount) (allocs : List WithdrawAllocation)
    (hok : prepareWithdrawAccounts deriveStake deriveTransient stakePool validators
      reserveLamports minBalanceForRentExemption amount compareFn skipFee = .ok allocs) :
    (∀ a ∈ allocs, 0 < a.poolAmount) ∧
    (allocs.map WithdrawAllocation.poolAmount).sum = amount ∧
    List.Sublist (allocs.map (fun a => (a.stakeAddress, a.voteAddress)))
      ((tierConcat (candidateAccounts deriveStake deriveTransient stakePool validators
          reserveLamports minBalanceForRentExemption compareFn)).map
        (fun c => (c.stakeAddress, c.voteAddress))) ∧
    List.Perm
      (tierConcat (candidateAccounts deriveStake deriveTransient stakePool validators
        reserveLamports minBalanceForRentExemption compareFn))
      (candidateAccounts deriveStake deriveTransient stakePool validators
        reserveLamports minBalanceForRentExemption compareFn) := by
  simp only [prepareWithdrawAccounts] at hok
  by_cases hne : validators.length = 0
  · rw [if_pos hne] at hok
    exact absurd hok (by simp)
  · rw [if_neg hne] at hok
    rw [walkTiers_tierOrder_eq] at hok
    by_cases hpos : 0 < (specWalk stakePool skipFee
        (minBalanceForRentExemption + (MINIMUM_ACTIVE_STAKE : Int))
        (tierConcat (candidateAccounts deriveStake deriveTransient stakePool validators
          reserveLamports minBalanceForRentExemption compareFn)) amount).2
    · rw [if_pos hpos] at hok
      exact absurd hok (by simp)
    · rw [if_neg hpos] at hok
      have hall : allocs = (specWalk stakePool skipFee
          (minBalanceForRentExemption + (MINIMUM_ACTIVE_STAKE : Int))
          (tierConcat (candidateAccounts deriveStake deriveTransient stakePool validators
            reserveLamports minBalanceForRentExemption compareFn)) amount).1 := by
        simpa using hok.symm
      obtain ⟨i1, i2, i3, i4⟩ := specWalk_invariants stakePool skipFee
        (minBalanceForRentExemption + (MINIMUM_ACTIVE_STAKE : Int))
        (tierConcat (candidateAccounts deriveStake deriveTransient stakePool validators
          reserveLamports minBalanceForRentExemption compareFn)) amount hamt
      have hr0 : (specWalk stakePool skipFee
          (minBalanceForRentExemption + (MINIMUM_ACTIVE_STAKE : Int))
          (tierConcat (candidateAccounts deriveStake deriveTransient stakePool validators
            reserveLamports minBalanceForRentExemption compareFn)) amount).2 = 0 :=
        le_antisymm (not_lt.mp hpos) i1
      subst hall
      exact ⟨i3, by rw [i2, hr0, sub_zero], i4, tierConcat_perm _⟩

unseal Rat.add Rat.mul Rat.inv Rat.sub in
/-- Witness for C10: the spec's selector scenario — one active validator worth
2×10⁹ pool tokens, a reserve 10_000 lamports above rent exemption, the full
validator value requested — returns exactly one strictly positive allocation
summing to the request. -/
theorem c10_allocation_invariants_witness :
    (∀ a ∈ ([⟨87, some 77, 2000000000⟩] : List WithdrawAllocation), 0 < a.poolAmount) ∧
    (([⟨87, some 77, 2000000000⟩] : List WithdrawAllocation).map
        WithdrawAllocation.poolAmount).sum = 2000000000 ∧
    List.Sublist
      (([⟨87, some 77, 2000000000⟩] : List WithdrawAllocation).map
        (fun a => (a.stakeAddress, a.voteAddress)))
      ((tierConcat (candidateAccounts (fun v => v + 10) (fun v s => v + 20 + s)
          ⟨none, 99, ⟨1, 0⟩, 0, 0⟩ [⟨2000000000, 0, 0, 0, 77⟩] (some 10060) 50 none)).map
        (fun c => (c.stakeAddress, c.voteAddress))) ∧
    List.Perm
      (tierConcat (candidateAccounts (fun v => v + 10) (fun v s => v + 20 + s)
        ⟨none, 99, ⟨1, 0⟩, 0, 0⟩ [⟨2000000000, 0, 0, 0, 77⟩] (some 10060) 50 none))
      (candidateAccounts (fun v => v + 10) (fun v s => v + 20 + s)
        ⟨none, 99, ⟨1, 0⟩, 0, 0⟩ [⟨2000000000, 0, 0, 0, 77⟩] (some 10060) 50 none) :=
  c10_allocation_invariants (fun v => v + 10) (fun v s => v + 20 + s)
    ⟨none, 99, ⟨1, 0⟩, 0, 0⟩ [⟨2000000000, 0, 0, 0, 77⟩] (some 10060) 50 2000000000 none false
    (by decide) [⟨87, some 77, 2000000000⟩] (by decide)

unseal Rat.add Rat.mul Rat.inv Rat.sub in
/-- C10 counterexample: for the (nonsensical but accepted) negative request
`-1`, the selector returns normally with the empty allocation list, whose sum
`0` differs from the requested amount — the claim as stated, with no sign
restriction, fails. -/
theorem c10_counterexample :
    prepareWithdrawAccounts (fun v => v + 1000) (fun v s => v + 2000 + s)
        ⟨none, 99, ⟨1, 0⟩, 0, 0⟩ [⟨0, 0, 0, 0, 77⟩] none 0 (-1) none false
      = .ok [] ∧
    (([] : List WithdrawAllocation).map WithdrawAllocation.poolAmount).sum = 0 ∧
    (0 : ℚ) ≠ -1 :=
  ⟨by decide, rfl, by decide⟩

unseal Rat.add Rat.mul Rat.inv Rat.sub in
/-- Witness for C2: with a preferred-withdraw address matching the single
active validator, the preferred candidate is in the list, the reserve
candidate count is 1, and a non-active validator contributes nothing. -/
theorem c2_candidate_characterization_witness :
    activeCandidate (fun v => v + 10) ⟨some 77, 99, ⟨1, 0⟩, 0, 0⟩ ⟨5, 0, 0, 0, 77⟩
      ∈ candidateAccounts (fun v => v + 10) (fun v s => v + 20 + s)
          ⟨some 77, 99, ⟨1, 0⟩, 0, 0⟩ [⟨5, 0, 0, 0, 77⟩] (some 10060) 50 none ∧
    (candidateAccounts (fun v => v + 10) (fun v s => v + 20 + s)
        ⟨some 77, 99, ⟨1, 0⟩, 0, 0⟩ [⟨5, 0, 0, 0, 77⟩] (some 10060) 50 none).countP
        (fun c => decide (c.ctype = CandidateType.reserve)) = 1 ∧
    validatorCandidates (fun v => v + 10) (fun v s => v + 20 + s)
      ⟨some 77, 99, ⟨1, 0⟩, 0, 0⟩ (50 + (MINIMUM_ACTIVE_STAKE : Int)) ⟨5, 0, 0, 2, 88⟩ = [] :=
  ⟨((c2_candidate_characterization (fun v => v + 10) (fun v s => v + 20 + s)
        ⟨some 77, 99, ⟨1, 0⟩, 0, 0⟩ [⟨5, 0, 0, 0, 77⟩] (some 10060) 50 none).1 _).mpr
      (Or.inl ⟨⟨5, 0, 0, 0, 77⟩, by decide, rfl, Or.inl ⟨by decide, rfl⟩⟩),
    by
      rw [(c2_candidate_characterization (fun v => v + 10) (fun v s => v + 20 + s)
        ⟨some 77, 99, ⟨1, 0⟩, 0, 0⟩ [⟨5, 0, 0, 0, 77⟩] (some 10060) 50 none).2.1]
      decide,
    (c2_candidate_characterization (fun v => v + 10) (fun v s => v + 20 + s)
        ⟨some 77, 99, ⟨1, 0⟩, 0, 0⟩ [⟨5, 0, 0, 0, 77⟩] (some 10060) 50 none).2.2.2
      ⟨5, 0, 0, 2, 88⟩ (by decide)⟩

unseal Rat.add Rat.mul Rat.inv Rat.sub in
/-- Witness for C3 at a concrete pool, candidate list and request. -/
theorem c3_walk_structure_witness :
    walkTiers ⟨none, 99, ⟨1, 0⟩, 0, 0⟩ false 1000000 tierOrder
        [⟨.active, some 77, 1077, 100⟩] 5
      = specWalk ⟨none, 99, ⟨1, 0⟩, 0, 0⟩ false 1000000
          (tierConcat [⟨.active, some 77, 1077, 100⟩]) 5 ∧
    specWalk ⟨none, 99, ⟨1, 0⟩, 0, 0⟩ false 1000000 [⟨.active, some 77, 1077, 100⟩] 0
      = ([], 0) ∧
    List.Sorted (fun a b : WithdrawCandidate => b.lamports ≤ a.lamports)
      ((sortCandidates none [⟨.active, some 77, 1077, 100⟩]).filter
        (fun a => decide (a.ctype = CandidateType.active))) :=
  c3_walk_structure ⟨none, 99, ⟨1, 0⟩, 0, 0⟩ false 1000000
    [⟨.active, some 77, 1077, 100⟩] [⟨.active, some 77, 1077, 100⟩] 5 CandidateType.active
